import Mathlib

/-!
Verification of the banner-serving program (`src/server.py`).

The development shallowly embeds the program: Python `dict`s become
association lists with update-in-place-or-append semantics, the
`defaultdict(list)` used for the category index becomes an association list
whose read operation inserts an empty entry for a missing key (exactly as
`defaultdict.__getitem__` does), and the request handler becomes an explicit
state-passing function parameterised by the random draw.  Machine strings and
integers are Lean `String` and `Int`.
-/

namespace BannerServer

/-- Python `dict` with `String` keys, as an association list.  The update
operation keeps the first binding of a key and never duplicates keys, mirroring
CPython's observable lookup/update behaviour. -/
abbrev PyDict (α : Type) := List (String × α)

/-- Lookup in a Python dict (`d.get(k)` / `d[k]`). -/
def dictGet? {α : Type} : PyDict α → String → Option α
  | [], _ => none
  | p :: rest, k => if p.1 = k then some p.2 else dictGet? rest k

/-- Store into a Python dict (`d[k] = v`): overwrite the binding when the key
is present, append a new binding otherwise. -/
def dictSet {α : Type} : PyDict α → String → α → PyDict α
  | [], k, v => [(k, v)]
  | p :: rest, k, v => if p.1 = k then (k, v) :: rest else p :: dictSet rest k v

/-- Read of `defaultdict(list)[k]`: returns the stored list when the key is
present; otherwise inserts the key with an empty list (this mutation on read
is CPython's `defaultdict.__missing__`) and returns the empty list together
with the extended dict. -/
def ddGet : PyDict (List String) → String → List String × PyDict (List String)
  | [], k => ([], [(k, [])])
  | p :: rest, k =>
    if p.1 = k then (p.2, p :: rest)
    else ((ddGet rest k).1, p :: (ddGet rest k).2)

/-- Effect of `defaultdict(list)[k].append(v)`: append `v` to the list stored
under `k`, creating the entry when missing. -/
def ddAppend : PyDict (List String) → String → String → PyDict (List String)
  | [], k, v => [(k, [v])]
  | p :: rest, k, v =>
    if p.1 = k then (p.1, p.2 ++ [v]) :: rest else p :: ddAppend rest k v

/-- Category-index lookup as a total function: the stored membership list, or
`[]` for an absent key.  This is the extensional reading of the defaultdict. -/
def lookupD (d : PyDict (List String)) (k : String) : List String :=
  (dictGet? d k).getD []

/-- Value of a nonempty all-digit character sequence, `none` otherwise. -/
def digitsVal? (cs : List Char) : Option Nat :=
  if cs ≠ [] ∧ cs.all Char.isDigit then
    some (cs.foldl (fun acc c => 10 * acc + (c.toNat - 48)) 0)
  else none

/-- Python `int(s)` restricted to optional-sign decimal literals (the only
shapes the configuration loader distinguishes): `none` models the
`ValueError` raised on anything that is not an integer literal.  Note that a
leading minus sign is accepted, so negative budgets parse successfully. -/
def pyInt (s : String) : Option Int :=
  match s.data with
  | '-' :: rest => (digitsVal? rest).map (fun n => -(n : Int))
  | '+' :: rest => (digitsVal? rest).map (fun n => (n : Int))
  | cs => (digitsVal? cs).map (fun n => (n : Int))

/-- Mutable state of the `Application` object: the banner list, the
show-budget ledger (`banner_shows`), the category index
(`banner_categories`, a `defaultdict(list)`), and the per-client history
(`last_banners`, keyed by remote IP). -/
structure St where
  banner_urls : List String
  banner_shows : PyDict Int
  banner_categories : PyDict (List String)
  last_banners : PyDict String
deriving DecidableEq, Repr

/-- State of a freshly constructed `Application` before `read_config`. -/
def initSt : St := ⟨[], [], [], []⟩

/-- Remaining-show count of a banner: the ledger value, read with default `0`
for a key that is absent (on states produced by `read_config` every banner
reaching this read is a ledger key, so the default never shows through). -/
def showsOf (st : St) (u : String) : Int :=
  (dictGet? st.banner_shows u).getD 0

/-- Processing of one configuration record inside `Application.read_config`:
`url = row[0]; shows = int(row[1]); categories = row[2:]`, then append the
url to `banner_urls`, append it under each of its categories, and store the
budget in `banner_shows`.  `none` models the `IndexError` on a record with
fewer than two fields and the `ValueError` of `int` on a bad budget field. -/
def readRow (st : St) (row : List String) : Option St :=
  if 2 ≤ row.length then
    match pyInt (row.getD 1 "") with
    | some shows =>
      some { st with
        banner_urls := st.banner_urls ++ [row.getD 0 ""]
        banner_categories :=
          (row.drop 2).foldl (fun d c => ddAppend d c (row.getD 0 "")) st.banner_categories
        banner_shows := dictSet st.banner_shows (row.getD 0 "") shows }
    | none => none
  else none

/-- `Application.read_config`, abstracted over the already-split CSV rows:
fold the records into the empty state; any failing record aborts the load
(the exception propagates out of `Application.__init__`, so the process never
starts with a partially read configuration). -/
def read_config (rows : List (List String)) : Option St :=
  rows.foldlM readRow initSt

/-- `Application.get_last_banner`. -/
def get_last_banner (st : St) (ip : String) : Option String :=
  dictGet? st.last_banners ip

/-- `Application.set_last_banner`. -/
def set_last_banner (st : St) (ip banner_url : String) : St :=
  { st with last_banners := dictSet st.last_banners ip banner_url }

/-- The list comprehension
`[banner_url for category in categories for banner_url in banner_categories[category]]`:
concatenate the membership lists of the requested categories in order,
threading the defaultdict (each read of a missing category inserts an empty
entry). -/
def unionOverCats (d : PyDict (List String)) :
    List String → List String × PyDict (List String)
  | [] => ([], d)
  | c :: cs =>
    ((ddGet d c).1 ++ (unionOverCats (ddGet d c).2 cs).1,
     (unionOverCats (ddGet d c).2 cs).2)

/-- Deduplication `list(set(l))`.  CPython's set iteration order is
unspecified, so any order-normalising deduplication is a faithful model of
the properties that do not depend on that order; this one keeps the last
occurrence of each element. -/
def pyDedup : List String → List String
  | [] => []
  | x :: xs => if x ∈ xs then pyDedup xs else x :: pyDedup xs

/-- Category candidate set of `get_available_banners_for_categories`: for a
nonempty request the deduplicated union over the requested categories
(together with the possibly-extended defaultdict), otherwise the full
`banner_urls` list. -/
def category_candidates (st : St) (cats : List String) :
    List String × PyDict (List String) :=
  if cats = [] then (st.banner_urls, st.banner_categories)
  else (pyDedup (unionOverCats st.banner_categories cats).1,
        (unionOverCats st.banner_categories cats).2)

/-- Budget filter of `get_available_banners_for_categories`: keep the
candidates whose ledger count is strictly positive. -/
def budget_eligible (st : St) (cats : List String) :
    List String × PyDict (List String) :=
  ((category_candidates st cats).1.filter (fun u => decide (0 < showsOf st u)),
   (category_candidates st cats).2)

/-- Anti-repetition step: `if last_banner and last_banner in available_banners:
if len(available_banners) > 1: available_banners.remove(last_banner)`.
Python truthiness makes an empty-string last banner behave as absent, and
`list.remove` drops only the first occurrence. -/
def antiRepetition (st : St) (ip : String) (avail : List String) : List String :=
  match get_last_banner st ip with
  | some lb =>
    if lb ≠ "" ∧ lb ∈ avail ∧ 1 < avail.length then avail.erase lb else avail
  | none => avail

/-- `MainHandler.get_available_banners_for_categories`: candidate set, budget
filter, anti-repetition; also returns the category index as mutated by the
defaultdict reads. -/
def get_available_banners_for_categories (st : St) (cats : List String)
    (ip : String) : List String × PyDict (List String) :=
  (antiRepetition st ip (budget_eligible st cats).1, (budget_eligible st cats).2)

/-- `MainHandler.choose_banner`: `banners[random.randint(0, len(banners)-1)]`.
The draw is modelled by an arbitrary natural number reduced modulo the list
length, which ranges over exactly the indices `randint` can produce on a
nonempty list (the only way the handler calls it). -/
def choose_banner (banners : List String) (n : Nat) : String :=
  banners.getD (n % banners.length) ""

/-- Opening brace character (written via its code point). -/
def lbrace : Char := Char.ofNat 123

/-- Closing brace character (written via its code point). -/
def rbrace : Char := Char.ofNat 125

/-- Interpreter for Python `str.format` with named fields: outside a field,
characters are copied; between braces the field name is accumulated and then
replaced by its substitution.  Malformed templates (unclosed field) end the
output at the end of input. -/
def pyFormatGo (subs : PyDict String) : List Char → Option (List Char) → List Char
  | [], _ => []
  | c :: rest, none =>
    if c = lbrace then pyFormatGo subs rest (some [])
    else c :: pyFormatGo subs rest none
  | c :: rest, some acc =>
    if c = rbrace then
      ((dictGet? subs (String.mk acc.reverse)).getD "").data ++ pyFormatGo subs rest none
    else pyFormatGo subs rest (some (c :: acc))

/-- Python `template.format(**subs)` for the template shapes used here. -/
def pyFormat (template : String) (subs : PyDict String) : String :=
  String.mk (pyFormatGo subs template.data none)

/-- `MainHandler.banner_wrapper`: render the response body from the format
string `'{url}<img src="{url}" alt="{alt}">'` with `url=banner_url` and
`alt='Banner'`. -/
def banner_wrapper (banner_url : String) : String :=
  pyFormat "{url}<img src=\"{url}\" alt=\"{alt}\">"
    [("url", banner_url), ("alt", "Banner")]

/-- `MainHandler.output_banner`: render the html, decrement the chosen
banner's ledger count, and record it as the client's last banner. -/
def output_banner (st : St) (ip banner_url : String) : String × St :=
  (banner_wrapper banner_url,
   set_last_banner
     { st with banner_shows := dictSet st.banner_shows banner_url (showsOf st banner_url - 1) }
     ip banner_url)

/-- Outcome of one request: a served banner identifier, or the 404 path of
`banner_not_found`. -/
inductive Outcome where
  | served (banner_url : String)
  | notFound
deriving DecidableEq, Repr

/-- `MainHandler.get`: compute the available banners (this read may extend
the category defaultdict), then either serve a randomly chosen one (with the
ledger/history mutation of `output_banner`) or answer 404 with no further
state change. -/
def handleGet (st : St) (cats : List String) (ip : String) (n : Nat) :
    Outcome × St :=
  let avail := (get_available_banners_for_categories st cats ip).1
  let st1 : St := { st with
    banner_categories := (get_available_banners_for_categories st cats ip).2 }
  if avail = [] then (Outcome.notFound, st1)
  else
    (Outcome.served (choose_banner avail n),
     (output_banner st1 ip (choose_banner avail n)).2)

/-- Trace relation: `Serves x st N st'` holds when `N` consecutively processed
requests starting from state `st` each result in banner `x` being served,
ending in state `st'` (the categories, client and random draw of each request
are arbitrary). -/
inductive Serves (x : String) : St → Nat → St → Prop where
  | nil (st : St) : Serves x st 0 st
  | cons (st st' st'' : St) (cats : List String) (ip : String) (n k : Nat)
      (h : handleGet st cats ip n = (Outcome.served x, st'))
      (htail : Serves x st' k st'') : Serves x st (k + 1) st''

/-- Ledger invariant: every stored remaining-show count is non-negative. -/
def nonNegLedger (st : St) : Prop := ∀ p ∈ st.banner_shows, 0 ≤ p.2

/-- Well-formed dictionary: its stored keys are pairwise distinct (Python
dicts have this by construction; `dictSet` preserves it). -/
def keysNodup {α : Type} (d : PyDict α) : Prop := (d.map Prod.fst).Nodup

/-! ### Concrete states used as witnesses and counterexamples -/

/-- Configuration with two records for the same banner identifier `x`. -/
def cfgDup : List (List String) := [["x", "2"], ["x", "2"], ["a", "1"]]

/-- State `read_config` loads from `cfgDup`. -/
def stDup0 : St := ⟨["x", "x", "a"], [("x", 2), ("a", 1)], [], []⟩

/-- State after client "1.2.3.4" was served once from `stDup0` (the serve
picks `x` and records it as the client's last banner). -/
def stDup : St := (handleGet stDup0 [] "1.2.3.4" 0).2

/-- Two distinct banners with budget 1 each; the client last saw `x`. -/
def stPair : St := ⟨["x", "y"], [("x", 1), ("y", 1)], [], [("ip", "x")]⟩

/-- The single banner `x` is also the client's last-served banner. -/
def stSolo : St := ⟨["x"], [("x", 3)], [], [("ip", "x")]⟩

/-- Banner `x` with budget 1, registered under category `c`; no history. -/
def stOne : St := ⟨["x"], [("x", 1)], [("c", ["x"])], []⟩

/-- State after one request against `stOne` (it serves `x`). -/
def stOne' : St := (handleGet stOne [] "ip" 0).2

/-- A single banner whose budget is already exhausted. -/
def stZero : St := ⟨["x"], [("x", 0)], [], []⟩

/-- A banner with empty category index, used for the defaultdict mutation. -/
def stPlain : St := ⟨["a.png"], [("a.png", 1)], [], []⟩

/-- Configuration whose banner `x` occurs in two records with different
budgets and category lists. -/
def cfgTen : List (List String) :=
  [["x", "2", "c"], ["x", "3", "c", "d"], ["a", "1"]]

/-- State `read_config` loads from `cfgTen`. -/
def stTen : St := ⟨["x", "x", "a"], [("x", 3), ("a", 1)],
  [("c", ["x", "x"]), ("d", ["x"])], []⟩

/-! ### Dictionary lemmas -/

theorem dictGet?_dictSet {α : Type} (d : PyDict α) (k k' : String) (v : α) :
    dictGet? (dictSet d k v) k' = if k = k' then some v else dictGet? d k' := by
  induction d with
  | nil => simp [dictSet, dictGet?]
  | cons p rest ih =>
    by_cases hpk : p.1 = k
    · simp only [dictSet, hpk, if_true, dictGet?]
      by_cases hkk : k = k'
      · simp [hkk]
      · simp [hkk, dictGet?, hpk ▸ hkk]
    · simp only [dictSet, hpk, if_false, dictGet?]
      by_cases hpk' : p.1 = k'
      · have : ¬ k = k' := fun h => hpk (h ▸ hpk')
        simp [hpk', this]
      · simp [hpk', ih]

theorem mem_dictSet {α : Type} {d : PyDict α} {k : String} {v : α}
    {p : String × α} (h : p ∈ dictSet d k v) : p = (k, v) ∨ p ∈ d := by
  induction d with
  | nil => simpa [dictSet] using h
  | cons q rest ih =>
    by_cases hqk : q.1 = k
    · simp only [dictSet, hqk, if_true] at h
      rcases List.mem_cons.mp h with h' | h'
      · exact Or.inl (by simpa using h')
      · exact Or.inr (List.mem_cons_of_mem _ h')
    · simp only [dictSet, hqk, if_false] at h
      rcases List.mem_cons.mp h with h' | h'
      · exact Or.inr (h' ▸ List.mem_cons_self _ _)
      · rcases ih h' with h'' | h''
        · exact Or.inl h''
        · exact Or.inr (List.mem_cons_of_mem _ h'')

theorem ddGet_fst (d : PyDict (List String)) (k : String) :
    (ddGet d k).1 = lookupD d k := by
  induction d with
  | nil => simp [ddGet, lookupD, dictGet?]
  | cons p rest ih =>
    by_cases hpk : p.1 = k <;>
      simp [ddGet, lookupD, dictGet?, hpk, ih, lookupD]

theorem lookupD_ddGet_snd (d : PyDict (List String)) (k k' : String) :
    lookupD (ddGet d k).2 k' = lookupD d k' := by
  induction d with
  | nil =>
    by_cases hkk : k = k' <;> simp [ddGet, lookupD, dictGet?, hkk]
  | cons p rest ih =>
    by_cases hpk : p.1 = k
    · simp only [ddGet, if_pos hpk]
    · simp only [ddGet, if_neg hpk, lookupD, dictGet?]
      by_cases hpk' : p.1 = k'
      · rw [if_pos hpk', if_pos hpk']
      · rw [if_neg hpk', if_neg hpk']
        exact ih

theorem lookupD_ddAppend (d : PyDict (List String)) (k v k' : String) :
    lookupD (ddAppend d k v) k' =
      if k = k' then lookupD d k' ++ [v] else lookupD d k' := by
  induction d with
  | nil =>
    by_cases hkk : k = k' <;> simp [ddAppend, lookupD, dictGet?, hkk]
  | cons p rest ih =>
    by_cases hpk : p.1 = k
    · simp only [ddAppend, if_pos hpk, lookupD, dictGet?]
      by_cases hkk : k = k'
      · rw [if_pos (hpk.trans hkk), if_pos (hpk.trans hkk), if_pos hkk]
        rfl
      · have hpk' : ¬ p.1 = k' := fun h => hkk (hpk.symm.trans h)
        rw [if_neg hpk', if_neg hpk', if_neg hkk]
    · simp only [ddAppend, if_neg hpk, lookupD, dictGet?]
      by_cases hpk' : p.1 = k'
      · have hkk : ¬ k = k' := fun h => hpk (h ▸ hpk')
        rw [if_pos hpk', if_pos hpk', if_neg hkk]
      · rw [if_neg hpk', if_neg hpk']
        exact ih

/-! ### Candidate-set lemmas -/

theorem lookupD_unionOverCats_snd (cs : List String) (d : PyDict (List String))
    (k : String) : lookupD (unionOverCats d cs).2 k = lookupD d k := by
  induction cs generalizing d with
  | nil => simp [unionOverCats]
  | cons c cs ih => simp [unionOverCats, ih, lookupD_ddGet_snd]

theorem mem_unionOverCats (cs : List String) (d : PyDict (List String))
    (u : String) :
    u ∈ (unionOverCats d cs).1 ↔ ∃ c ∈ cs, u ∈ lookupD d c := by
  induction cs generalizing d with
  | nil => simp [unionOverCats]
  | cons c cs ih =>
    simp only [unionOverCats, List.mem_append, ih, ddGet_fst]
    constructor
    · rintro (h | ⟨c', hc', hu⟩)
      · exact ⟨c, List.mem_cons_self _ _, h⟩
      · exact ⟨c', List.mem_cons_of_mem _ hc', by
          rwa [lookupD_ddGet_snd] at hu⟩
    · rintro ⟨c', hc', hu⟩
      rcases List.mem_cons.mp hc' with rfl | hc'
      · exact Or.inl hu
      · exact Or.inr ⟨c', hc', by rwa [lookupD_ddGet_snd]⟩

theorem mem_pyDedup {l : List String} {a : String} :
    a ∈ pyDedup l ↔ a ∈ l := by
  induction l with
  | nil => simp [pyDedup]
  | cons x xs ih =>
    by_cases hx : x ∈ xs
    · simp only [pyDedup, hx, if_true, ih, List.mem_cons]
      constructor
      · exact Or.inr
      · rintro (rfl | h)
        · exact hx
        · exact h
    · simp [pyDedup, hx, ih]

theorem nodup_pyDedup (l : List String) : (pyDedup l).Nodup := by
  induction l with
  | nil => simp [pyDedup]
  | cons x xs ih =>
    by_cases hx : x ∈ xs
    · simpa [pyDedup, hx] using ih
    · simp only [pyDedup, hx, if_false, List.nodup_cons]
      exact ⟨fun h => hx (mem_pyDedup.mp h), ih⟩

theorem mem_category_candidates (st : St) (cats : List String) (u : String) :
    u ∈ (category_candidates st cats).1 ↔
      (if cats = [] then u ∈ st.banner_urls
       else ∃ c ∈ cats, u ∈ lookupD st.banner_categories c) := by
  by_cases h : cats = []
  · simp [category_candidates, h]
  · simp [category_candidates, h, mem_pyDedup, mem_unionOverCats]

theorem lookupD_category_candidates_snd (st : St) (cats : List String)
    (c : String) :
    lookupD (category_candidates st cats).2 c = lookupD st.banner_categories c := by
  by_cases h : cats = []
  · simp [category_candidates, h]
  · simp [category_candidates, h, lookupD_unionOverCats_snd]

theorem mem_budget_eligible (st : St) (cats : List String) (u : String) :
    u ∈ (budget_eligible st cats).1 ↔
      u ∈ (category_candidates st cats).1 ∧ 0 < showsOf st u := by
  simp [budget_eligible, List.mem_filter]

/-! ### Handler lemmas -/

theorem antiRepetition_subset (st : St) (ip : String) (avail : List String)
    {u : String} (h : u ∈ antiRepetition st ip avail) : u ∈ avail := by
  unfold antiRepetition at h
  split at h
  · split at h
    · exact List.mem_of_mem_erase h
    · exact h
  · exact h

theorem antiRepetition_ne_nil (st : St) (ip : String) {avail : List String}
    (h : avail ≠ []) : antiRepetition st ip avail ≠ [] := by
  unfold antiRepetition
  split
  · split
    · rename_i hc
      intro hnil
      have hlen : 1 < avail.length := hc.2.2
      rw [← List.length_eq_zero, List.length_erase_of_mem hc.2.1] at hnil
      omega
    · exact h
  · exact h

theorem choose_banner_mem {banners : List String} (h : banners ≠ [])
    (n : Nat) : choose_banner banners n ∈ banners := by
  have hlen : 0 < banners.length := List.length_pos.mpr h
  have hlt : n % banners.length < banners.length := Nat.mod_lt _ hlen
  unfold choose_banner
  rw [List.getD_eq_getElem?_getD, List.getElem?_eq_getElem hlt]
  exact List.getElem_mem hlt

theorem showsOf_set_banner_shows (st : St) (x u : String) (v : Int) :
    showsOf { st with banner_shows := dictSet st.banner_shows x v } u =
      if x = u then v else showsOf st u := by
  unfold showsOf
  rw [dictGet?_dictSet]
  by_cases h : x = u <;> simp [h]

theorem handleGet_of_avail_nil {st : St} {cats : List String} {ip : String}
    (n : Nat) (h : (get_available_banners_for_categories st cats ip).1 = []) :
    handleGet st cats ip n =
      (Outcome.notFound,
       { st with
          banner_categories := (get_available_banners_for_categories st cats ip).2 }) := by
  simp [handleGet, h]

theorem handleGet_of_avail_ne_nil {st : St} {cats : List String} {ip : String}
    (n : Nat) (h : (get_available_banners_for_categories st cats ip).1 ≠ []) :
    handleGet st cats ip n =
      (Outcome.served
        (choose_banner (get_available_banners_for_categories st cats ip).1 n),
       (output_banner
         { st with
            banner_categories := (get_available_banners_for_categories st cats ip).2 }
         ip
         (choose_banner (get_available_banners_for_categories st cats ip).1 n)).2) := by
  simp [handleGet, h]

theorem handleGet_served_inv {st : St} {cats : List String} {ip : String}
    {n : Nat} {x : String} {st' : St}
    (h : handleGet st cats ip n = (Outcome.served x, st')) :
    x ∈ (budget_eligible st cats).1 ∧ 0 < showsOf st x ∧
    st'.banner_shows = dictSet st.banner_shows x (showsOf st x - 1) ∧
    st'.last_banners = dictSet st.last_banners ip x ∧
    st'.banner_urls = st.banner_urls := by
  by_cases hav : (get_available_banners_for_categories st cats ip).1 = []
  · rw [handleGet_of_avail_nil n hav] at h
    exact absurd (congrArg Prod.fst h) (by simp)
  · rw [handleGet_of_avail_ne_nil n hav] at h
    have hx : choose_banner (get_available_banners_for_categories st cats ip).1 n = x := by
      have := congrArg Prod.fst h
      simpa using this
    have hst' := congrArg Prod.snd h
    simp only at hst'
    have hmem : x ∈ (budget_eligible st cats).1 := by
      rw [← hx]
      exact antiRepetition_subset st ip _ (choose_banner_mem hav n)
    have hpos : 0 < showsOf st x := (mem_budget_eligible st cats x).mp hmem |>.2
    subst hst'
    refine ⟨hmem, hpos, ?_, ?_, ?_⟩ <;>
      simp [hx, output_banner, set_last_banner, showsOf]

theorem handleGet_cases (st : St) (cats : List String) (ip : String) (n : Nat) :
    ((handleGet st cats ip n).1 = Outcome.notFound ∧
     (handleGet st cats ip n).2.banner_shows = st.banner_shows ∧
     (handleGet st cats ip n).2.last_banners = st.last_banners) ∨
    (∃ x st', handleGet st cats ip n = (Outcome.served x, st')) := by
  by_cases hav : (get_available_banners_for_categories st cats ip).1 = []
  · left
    rw [handleGet_of_avail_nil n hav]
    exact ⟨rfl, rfl, rfl⟩
  · right
    exact ⟨_, _, handleGet_of_avail_ne_nil n hav⟩

theorem handleGet_urls_cats (st : St) (cats : List String) (ip : String)
    (n : Nat) :
    (handleGet st cats ip n).2.banner_urls = st.banner_urls ∧
    (handleGet st cats ip n).2.banner_categories = (budget_eligible st cats).2 := by
  by_cases hav : (get_available_banners_for_categories st cats ip).1 = []
  · rw [handleGet_of_avail_nil n hav]
    exact ⟨rfl, rfl⟩
  · rw [handleGet_of_avail_ne_nil n hav]
    exact ⟨rfl, rfl⟩

/-! ### Auxiliary facts for the anti-repetition rule -/

theorem antiRepetition_of_last {st : St} {ip : String} (avail : List String)
    {lb : String} (hlast : get_last_banner st ip = some lb) :
    antiRepetition st ip avail =
      if lb ≠ "" ∧ lb ∈ avail ∧ 1 < avail.length then avail.erase lb
      else avail := by
  unfold antiRepetition
  rw [hlast]

/-! ### Claim theorems -/

/-- Claim C1: the set handed to the random-choice step, before
anti-repetition, is the category candidate set — for a nonempty request the
deduplicated union of the requested categories' membership lists, otherwise
the full inventory list — filtered to banners whose current ledger count is
strictly positive; hence it never contains a banner with remaining
budget ≤ 0. -/
theorem C1_budget_eligible_spec (st : St) (cats : List String) (u : String) :
    (u ∈ (budget_eligible st cats).1 ↔
      ((if cats = [] then u ∈ st.banner_urls
        else ∃ c ∈ cats, u ∈ lookupD st.banner_categories c) ∧
       0 < showsOf st u)) ∧
    (∀ v ∈ (budget_eligible st cats).1, ¬ showsOf st v ≤ 0) := by
  constructor
  · rw [mem_budget_eligible, mem_category_candidates]
  · intro v hv
    have := ((mem_budget_eligible st cats v).mp hv).2
    omega

/-- Witness for C1 at a concrete state: banner `y` of `stPair` is
budget-eligible for the empty category request, so its budget is not ≤ 0. -/
theorem C1_witness : ¬ showsOf stPair "y" ≤ 0 :=
  (C1_budget_eligible_spec stPair [] "y").2 "y" (by decide)

/-- Claim C2 fails as stated: with the duplicate-record configuration
`cfgDup` the client's last-served banner `x` occurs twice in the candidate
list, `list.remove` deletes only one occurrence, and the request serves `x`
again even though the alternative `a` is budget-eligible. -/
theorem C2_counterexample :
    read_config cfgDup = some stDup0 ∧
    (handleGet stDup0 [] "1.2.3.4" 0).1 = Outcome.served "x" ∧
    get_last_banner stDup "1.2.3.4" = some "x" ∧
    "x" ∈ (budget_eligible stDup []).1 ∧
    "a" ∈ (budget_eligible stDup []).1 ∧ "a" ≠ "x" ∧
    (handleGet stDup [] "1.2.3.4" 0).1 = Outcome.served "x" := by decide

/-- Claim C2 (amended): when the client's last-served banner is a non-empty
identifier occurring exactly once in the budget-eligible list, it is removed
unless it is the only element: with at least two eligible entries the served
banner is never the last-served one, and when the eligible list is exactly
the last-served banner the request still succeeds and serves it. -/
theorem C2_anti_repetition (st : St) (cats : List String) (ip : String)
    (n : Nat) (lb : String) (hlast : get_last_banner st ip = some lb)
    (hne : lb ≠ "") (hcount : ((budget_eligible st cats).1).count lb = 1) :
    (2 ≤ ((budget_eligible st cats).1).length →
      ∃ u st', handleGet st cats ip n = (Outcome.served u, st') ∧ u ≠ lb) ∧
    ((budget_eligible st cats).1 = [lb] →
      ∃ st', handleGet st cats ip n = (Outcome.served lb, st')) := by
  constructor
  · intro hlen
    have hmem : lb ∈ (budget_eligible st cats).1 :=
      List.count_pos_iff.mp (hcount ▸ Nat.one_pos)
    have hcond : lb ≠ "" ∧ lb ∈ (budget_eligible st cats).1 ∧
        1 < (budget_eligible st cats).1.length := ⟨hne, hmem, by omega⟩
    have havailEq : (get_available_banners_for_categories st cats ip).1 =
        (budget_eligible st cats).1.erase lb := by
      show antiRepetition st ip (budget_eligible st cats).1 = _
      rw [antiRepetition_of_last _ hlast, if_pos hcond]
    have heraselen : ((budget_eligible st cats).1.erase lb).length =
        (budget_eligible st cats).1.length - 1 :=
      List.length_erase_of_mem hmem
    have hne2 : (budget_eligible st cats).1.erase lb ≠ [] := by
      intro h0
      rw [← List.length_eq_zero] at h0
      omega
    have hne1 : (get_available_banners_for_categories st cats ip).1 ≠ [] := by
      rw [havailEq]; exact hne2
    refine ⟨choose_banner (get_available_banners_for_categories st cats ip).1 n,
      _, handleGet_of_avail_ne_nil n hne1, ?_⟩
    have hchmem : choose_banner (get_available_banners_for_categories st cats ip).1 n ∈
        (budget_eligible st cats).1.erase lb := by
      rw [← havailEq]
      exact choose_banner_mem hne1 n
    intro hchlb
    rw [hchlb] at hchmem
    have hzero : List.count lb ((budget_eligible st cats).1.erase lb) = 0 := by
      rw [List.count_erase_self, hcount]
    exact absurd (List.count_pos_iff.mpr hchmem) (by omega)
  · intro hsingle
    have havailEq : (get_available_banners_for_categories st cats ip).1 = [lb] := by
      show antiRepetition st ip (budget_eligible st cats).1 = _
      rw [antiRepetition_of_last _ hlast, hsingle]
      simp
    have hne1 : (get_available_banners_for_categories st cats ip).1 ≠ [] := by
      rw [havailEq]; exact List.cons_ne_nil _ _
    have hch : choose_banner (get_available_banners_for_categories st cats ip).1 n = lb := by
      rw [havailEq]
      simp [choose_banner, Nat.mod_one]
    exact ⟨_, by rw [handleGet_of_avail_ne_nil n hne1, hch]⟩

/-- Witness for C2 at a concrete state: `stSolo`'s only eligible banner is
the client's last-served `x`, and the request serves `x` again. -/
theorem C2_witness : (handleGet stSolo [] "ip" 5).1 = Outcome.served "x" := by
  rcases (C2_anti_repetition stSolo [] "ip" 5 "x" (by decide) (by decide)
    (by decide)).2 (by decide) with ⟨st', h⟩
  rw [h]

/-- Claim C6: a request whose eligible set is empty answers with the 404
outcome, and neither the show-budget ledger nor the client history changes. -/
theorem C6_not_found_no_mutation (st : St) (cats : List String) (ip : String)
    (n : Nat)
    (h : (get_available_banners_for_categories st cats ip).1 = []) :
    (handleGet st cats ip n).1 = Outcome.notFound ∧
    (handleGet st cats ip n).2.banner_shows = st.banner_shows ∧
    (handleGet st cats ip n).2.last_banners = st.last_banners := by
  rw [handleGet_of_avail_nil n h]
  exact ⟨rfl, rfl, rfl⟩

/-- Witness for C6 at a concrete state: `stZero`'s only banner is
budget-exhausted, so the request is a 404 and changes nothing. -/
theorem C6_witness :
    (handleGet stZero [] "ip" 0).1 = Outcome.notFound ∧
    (handleGet stZero [] "ip" 0).2.banner_shows = stZero.banner_shows ∧
    (handleGet stZero [] "ip" 0).2.last_banners = stZero.last_banners :=
  C6_not_found_no_mutation stZero [] "ip" 0 (by decide)

/-- Claim C7 fails as stated: a request naming a category that is absent
from the index makes the `defaultdict` insert an empty entry for it, so the
category index is not identical before and after such a request. -/
theorem C7_counterexample :
    (handleGet stPlain ["zzz"] "ip" 0).2.banner_categories = [("zzz", [])] ∧
    stPlain.banner_categories = [] ∧
    (handleGet stPlain ["zzz"] "ip" 0).2.banner_categories ≠
      stPlain.banner_categories := by decide

/-- Claim C7 (amended): the banner list is identical before and after every
request, and the category index is extensionally unchanged — every category
label maps to the same membership list — though a request naming an absent
category inserts an empty (behaviour-preserving) entry for that label. -/
theorem C7_inventory_immutable (st : St) (cats : List String) (ip : String)
    (n : Nat) :
    (handleGet st cats ip n).2.banner_urls = st.banner_urls ∧
    ∀ c, lookupD (handleGet st cats ip n).2.banner_categories c =
      lookupD st.banner_categories c := by
  refine ⟨(handleGet_urls_cats st cats ip n).1, fun c => ?_⟩
  rw [(handleGet_urls_cats st cats ip n).2]
  show lookupD (category_candidates st cats).2 c = _
  exact lookupD_category_candidates_snd st cats c

/-- Claim C8: a requested category label not registered in the index
contributes an empty candidate subset rather than an error, and the union
over the request is exactly the union over the remaining categories. -/
theorem C8_unknown_category (st : St) (c : String) (cats1 cats2 : List String)
    (u : String) (h : dictGet? st.banner_categories c = none) :
    lookupD st.banner_categories c = [] ∧
    (u ∈ (unionOverCats st.banner_categories (cats1 ++ c :: cats2)).1 ↔
     u ∈ (unionOverCats st.banner_categories (cats1 ++ cats2)).1) := by
  have hl : lookupD st.banner_categories c = [] := by simp [lookupD, h]
  refine ⟨hl, ?_⟩
  rw [mem_unionOverCats, mem_unionOverCats]
  constructor
  · rintro ⟨c', hc', hu⟩
    rcases List.mem_append.mp hc' with h1 | h2
    · exact ⟨c', List.mem_append_left _ h1, hu⟩
    · rcases List.mem_cons.mp h2 with rfl | h3
      · rw [hl] at hu
        cases hu
      · exact ⟨c', List.mem_append_right _ h3, hu⟩
  · rintro ⟨c', hc', hu⟩
    rcases List.mem_append.mp hc' with h1 | h2
    · exact ⟨c', List.mem_append_left _ h1, hu⟩
    · exact ⟨c', List.mem_append_right _ (List.mem_cons_of_mem _ h2), hu⟩

/-- Witness for C8 at a concrete state: `zzz` is unregistered in `stOne`,
contributes no candidates, and the union over `["c", "zzz"]` has the same
members as the union over `["c"]`. -/
theorem C8_witness :
    lookupD stOne.banner_categories "zzz" = [] ∧
    ("x" ∈ (unionOverCats stOne.banner_categories (["c"] ++ "zzz" :: [])).1 ↔
     "x" ∈ (unionOverCats stOne.banner_categories (["c"] ++ [])).1) :=
  C8_unknown_category stOne "zzz" ["c"] [] "x" (by decide)

/-- Claim C9 fails as stated: the rendered body's fixed alternate text is
`Banner` with no trailing period, so the body demanded by the claim (alt
text `Banner.`) is not what the program produces. -/
theorem C9_counterexample :
    banner_wrapper "x.png" = "x.png<img src=\"x.png\" alt=\"Banner\">" ∧
    banner_wrapper "x.png" ≠ "x.png<img src=\"x.png\" alt=\"Banner.\">" := by
  decide

/-- Claim C9 (amended): for every chosen banner identifier the rendered
response body embeds the identifier both as the leading link target and as
the image source, with fixed alternate text `Banner` (no trailing period). -/
theorem C9_rendered_body (banner_url : String) :
    banner_wrapper banner_url =
      banner_url ++ "<img src=\"" ++ banner_url ++ "\" alt=\"Banner\">" := by
  apply String.ext
  cases banner_url with
  | mk data =>
    simp +decide [banner_wrapper, pyFormat, pyFormatGo, dictGet?, lbrace,
      rbrace, String.data_append]

/-- Claim C5: a request decrements a ledger count only when that count was
strictly positive at decision time, and consequently a ledger whose counts
are all non-negative stays non-negative across every request. -/
theorem C5_ledger_nonneg (st : St) (cats : List String) (ip : String) (n : Nat)
    (h : nonNegLedger st) :
    nonNegLedger (handleGet st cats ip n).2 ∧
    ∀ u, showsOf (handleGet st cats ip n).2 u ≠ showsOf st u →
      0 < showsOf st u ∧
      showsOf (handleGet st cats ip n).2 u = showsOf st u - 1 := by
  rcases handleGet_cases st cats ip n with ⟨-, hshows, -⟩ | ⟨x, st', hpair⟩
  · constructor
    · intro p hp
      rw [hshows] at hp
      exact h p hp
    · intro u hu
      exact absurd (by unfold showsOf; rw [hshows]) hu
  · have hsnd : (handleGet st cats ip n).2 = st' := congrArg Prod.snd hpair
    obtain ⟨-, hpos, hshows', -, -⟩ := handleGet_served_inv hpair
    have hval : ∀ u, showsOf st' u =
        if x = u then showsOf st x - 1 else showsOf st u := by
      intro u
      unfold showsOf
      rw [hshows', dictGet?_dictSet]
      by_cases hxu : x = u <;> simp [hxu, showsOf]
    constructor
    · intro p hp
      rw [hsnd, hshows'] at hp
      rcases mem_dictSet hp with rfl | hpmem
      · simp only
        omega
      · exact h p hpmem
    · intro u hu
      rw [hsnd, hval u] at hu ⊢
      by_cases hxu : x = u
      · subst hxu
        rw [if_pos rfl]
        exact ⟨hpos, rfl⟩
      · rw [if_neg hxu] at hu
        exact absurd rfl hu

/-- Witness for C5 at a concrete state: `stOne`'s ledger is non-negative and
remains so after a request that serves its banner. -/
theorem C5_witness : nonNegLedger (handleGet stOne [] "ip" 0).2 :=
  (C5_ledger_nonneg stOne [] "ip" 0 (by
    intro p hp
    simp only [stOne, List.mem_singleton] at hp
    subst hp
    decide)).1

/-! ### Budget-exhaustion lemmas for claim C4 -/

theorem antiRepetition_nil (st : St) (ip : String) :
    antiRepetition st ip [] = [] := by
  unfold antiRepetition
  split
  · rw [if_neg (by simp)]
  · rfl

theorem handleGet_notFound_of_exhausted (st : St) (x : String)
    (hx : showsOf st x = 0) (cats : List String)
    (honly : ∀ u ∈ (category_candidates st cats).1, u = x)
    (ip : String) (n : Nat) :
    (handleGet st cats ip n).1 = Outcome.notFound := by
  have hBE : (budget_eligible st cats).1 = [] := by
    rw [List.eq_nil_iff_forall_not_mem]
    intro u hu
    rcases (mem_budget_eligible st cats u).mp hu with ⟨hc, hpos⟩
    rw [honly u hc] at hpos
    omega
  have havail : (get_available_banners_for_categories st cats ip).1 = [] := by
    show antiRepetition st ip (budget_eligible st cats).1 = []
    rw [hBE]
    exact antiRepetition_nil st ip
  rw [handleGet_of_avail_nil n havail]

theorem serves_shows {x : String} {st : St} {N : Nat} {st' : St}
    (h : Serves x st N st') :
    showsOf st' x = showsOf st x - N ∧ (0 < N → (N : Int) ≤ showsOf st x) := by
  induction h with
  | nil st0 => exact ⟨by simp, by omega⟩
  | cons st0 st1 st2 cats ip n k hserve htail ih =>
    obtain ⟨-, hpos, hshows1, -, -⟩ := handleGet_served_inv hserve
    have h1 : showsOf st1 x = showsOf st0 x - 1 := by
      unfold showsOf
      rw [hshows1, dictGet?_dictSet, if_pos rfl]
      rfl
    constructor
    · rw [ih.1, h1]
      push_cast
      ring
    · intro _
      rcases Nat.eq_zero_or_pos k with rfl | hk
      · push_cast
        omega
      · have h2 := ih.2 hk
        rw [h1] at h2
        push_cast at h2 ⊢
        omega

/-- Claim C4: along any trace of `N` requests that each successfully serve
banner `x`, the ledger count of `x` drops by exactly `N` (so it equals
`B − N` when it started at `B`, and `N` cannot exceed a positive trace's
starting budget); once the count reaches the initial budget's worth of
serves (count 0), any further request whose category candidates contain only
`x` answers "not found". -/
theorem C4_budget_accounting (st st' : St) (x : String) (N : Nat)
    (h : Serves x st N st') :
    showsOf st' x = showsOf st x - N ∧
    (0 < N → (N : Int) ≤ showsOf st x) ∧
    ((N : Int) = showsOf st x →
      ∀ cats ip n, (∀ u ∈ (category_candidates st' cats).1, u = x) →
        (handleGet st' cats ip n).1 = Outcome.notFound) := by
  obtain ⟨h1, h2⟩ := serves_shows h
  refine ⟨h1, h2, fun hNB cats ip n honly => ?_⟩
  apply handleGet_notFound_of_exhausted st' x ?_ cats honly ip n
  rw [h1, ← hNB]
  ring

/-- Witness for C4 at a concrete state: serving `x` once from `stOne`
(budget 1) leaves count 0 and the next `c`-only request is a 404. -/
theorem C4_witness :
    showsOf stOne' "x" = showsOf stOne "x" - ((1 : Nat) : Int) ∧
    (handleGet stOne' ["c"] "ip2" 0).1 = Outcome.notFound := by
  have hs : Serves "x" stOne 1 stOne' :=
    Serves.cons stOne stOne' stOne' [] "ip" 0 0 (by decide) (Serves.nil stOne')
  have h := C4_budget_accounting stOne stOne' "x" 1 hs
  exact ⟨h.1, h.2.2 (by decide) ["c"] "ip2" 0 (by decide)⟩

/-! ### Configuration-loading lemmas for claim C3 -/

theorem readRow_none_iff (st : St) (r : List String) :
    readRow st r = none ↔ (r.length < 2 ∨ pyInt (r.getD 1 "") = none) := by
  unfold readRow
  by_cases hlen : 2 ≤ r.length
  · rw [if_pos hlen]
    cases hpy : pyInt (r.getD 1 "") with
    | none => simp [hpy]
    | some v =>
      simp only [hpy]
      constructor
      · intro h
        cases h
      · rintro (h | h)
        · omega
        · cases h
  · rw [if_neg hlen]
    simp only [true_iff]
    exact Or.inl (by omega)

theorem read_config_none_aux (rows : List (List String)) (st : St) :
    List.foldlM readRow st rows = none ↔
      ∃ r ∈ rows, r.length < 2 ∨ pyInt (r.getD 1 "") = none := by
  induction rows generalizing st with
  | nil => simp
  | cons r rs ih =>
    cases hr : readRow st r with
    | none =>
      rw [List.foldlM_cons, hr]
      constructor
      · intro _
        exact ⟨r, List.mem_cons_self _ _, (readRow_none_iff st r).mp hr⟩
      · intro _
        rfl
    | some st1 =>
      rw [List.foldlM_cons, hr]
      have hred : (some st1 >>= fun st' => List.foldlM readRow st' rs) =
          List.foldlM readRow st1 rs := rfl
      rw [hred, ih st1]
      constructor
      · rintro ⟨r', hr', hbad⟩
        exact ⟨r', List.mem_cons_of_mem _ hr', hbad⟩
      · rintro ⟨r', hr', hbad⟩
        rcases List.mem_cons.mp hr' with rfl | h2
        · exact absurd ((readRow_none_iff st r').mpr hbad) (by simp [hr])
        · exact ⟨r', h2, hbad⟩

/-- Claim C3 (amended): configuration loading fails exactly when some record
has fewer than two fields (this covers the single-field record, which fails
rather than yielding an empty inventory) or its budget field is not an
integer literal at all; a budget that parses as a *negative* integer is
accepted, contrary to the claim's "non-negative" requirement. -/
theorem C3_config_failures (rows : List (List String)) :
    read_config rows = none ↔
      ∃ r ∈ rows, r.length < 2 ∨ pyInt (r.getD 1 "") = none :=
  read_config_none_aux rows initSt

/-- Claim C3 fails as stated: the record `a.png;-5` has a budget that is not
a valid non-negative integer, yet loading succeeds and seeds the ledger with
the negative count −5. -/
theorem C3_counterexample :
    pyInt "-5" = some (-5) ∧ (-5 : Int) < 0 ∧
    read_config [["a.png", "-5"]] =
      some ⟨["a.png"], [("a.png", -5)], [], []⟩ := by decide

/-- Witness for C3 at a concrete configuration: a single-field record makes
loading fail. -/
theorem C3_witness : read_config [["lonely.png"]] = none :=
  (C3_config_failures [["lonely.png"]]).mpr ⟨["lonely.png"], by decide, by decide⟩

/-! ### Configuration-loading lemmas for claim C10 -/

theorem read_config_append_some (rows : List (List String)) (r : List String)
    (st : St) (h : read_config (rows ++ [r]) = some st) :
    ∃ st0, read_config rows = some st0 ∧ readRow st0 r = some st := by
  unfold read_config at h ⊢
  rw [List.foldlM_append] at h
  cases h0 : List.foldlM readRow initSt rows with
  | none =>
    rw [h0] at h
    cases h
  | some st0 =>
    rw [h0] at h
    refine ⟨st0, rfl, ?_⟩
    simpa using h

theorem readRow_some_inv {st0 st : St} {r : List String}
    (h : readRow st0 r = some st) :
    2 ≤ r.length ∧ ∃ v, pyInt (r.getD 1 "") = some v ∧
      st = { st0 with
        banner_urls := st0.banner_urls ++ [r.getD 0 ""]
        banner_categories := (r.drop 2).foldl
          (fun d c => ddAppend d c (r.getD 0 "")) st0.banner_categories
        banner_shows := dictSet st0.banner_shows (r.getD 0 "") v } := by
  unfold readRow at h
  by_cases hlen : 2 ≤ r.length
  · rw [if_pos hlen] at h
    cases hpy : pyInt (r.getD 1 "") with
    | none => rw [hpy] at h; cases h
    | some v =>
      rw [hpy] at h
      exact ⟨hlen, v, rfl, (Option.some.inj h).symm⟩
  · rw [if_neg hlen] at h
    cases h

theorem read_config_nil_inv {st : St} (h : read_config [] = some st) :
    st = initSt := by
  simpa [read_config] using h.symm

theorem read_config_shows_lookup (rows : List (List String)) (st : St)
    (h : read_config rows = some st) (u : String) :
    dictGet? st.banner_shows u =
      ((rows.filter (fun r => r.getD 0 "" = u)).getLast?).bind
        (fun r => pyInt (r.getD 1 "")) := by
  induction rows using List.reverseRecOn generalizing st with
  | nil =>
    rw [read_config_nil_inv h]
    simp [initSt, dictGet?]
  | append_singleton rows r ih =>
    obtain ⟨st0, h0, hr⟩ := read_config_append_some rows r st h
    obtain ⟨hlen, v, hpy, hst⟩ := readRow_some_inv hr
    subst hst
    rw [List.filter_append]
    by_cases hu : r.getD 0 "" = u
    · have hu' : r[0]?.getD "" = u := by simpa using hu
      have hfr : List.filter (fun r => decide (r.getD 0 "" = u)) [r] = [r] := by
        simp [hu']
      rw [hfr, List.getLast?_concat]
      simp only [dictGet?_dictSet, if_pos hu, Option.some_bind]
      exact hpy.symm
    · have hu' : ¬ r[0]?.getD "" = u := by simpa using hu
      have hfr : List.filter (fun r => decide (r.getD 0 "" = u)) [r] = [] := by
        simp [hu']
      rw [hfr, List.append_nil]
      simp only [dictGet?_dictSet, if_neg hu]
      exact ih st0 h0

theorem read_config_urls_count (rows : List (List String)) (st : St)
    (h : read_config rows = some st) (u : String) :
    st.banner_urls.count u = (rows.filter (fun r => r.getD 0 "" = u)).length := by
  induction rows using List.reverseRecOn generalizing st with
  | nil =>
    rw [read_config_nil_inv h]
    simp [initSt]
  | append_singleton rows r ih =>
    obtain ⟨st0, h0, hr⟩ := read_config_append_some rows r st h
    obtain ⟨hlen, v, hpy, hst⟩ := readRow_some_inv hr
    subst hst
    rw [List.filter_append]
    simp only [List.count_append, List.length_append, ih st0 h0]
    by_cases hu : r.getD 0 "" = u
    · have hu' : r[0]?.getD "" = u := by simpa using hu
      simp [List.count_singleton, hu']
    · have hu' : ¬ r[0]?.getD "" = u := by simpa using hu
      simp [List.count_singleton, hu']

theorem count_foldl_ddAppend (cs : List String) (d : PyDict (List String))
    (url u c : String) :
    (lookupD (cs.foldl (fun d' c' => ddAppend d' c' url) d) c).count u =
      (lookupD d c).count u + (if url = u then cs.count c else 0) := by
  induction cs generalizing d with
  | nil => simp
  | cons c' cs ih =>
    rw [List.foldl_cons, ih, lookupD_ddAppend]
    by_cases hcc : c' = c
    · rw [if_pos hcc]
      subst hcc
      by_cases huu : url = u
      · simp [List.count_append, List.count_cons, huu]
        omega
      · simp [List.count_append, List.count_cons, huu]
    · rw [if_neg hcc]
      by_cases huu : url = u <;>
        simp [List.count_cons, huu, hcc]

theorem read_config_cats_count (rows : List (List String)) (st : St)
    (h : read_config rows = some st) (u c : String) :
    (lookupD st.banner_categories c).count u =
      ((rows.filter (fun r => r.getD 0 "" = u)).map
        (fun r => (r.drop 2).count c)).sum := by
  induction rows using List.reverseRecOn generalizing st with
  | nil =>
    rw [read_config_nil_inv h]
    simp [initSt, lookupD, dictGet?]
  | append_singleton rows r ih =>
    obtain ⟨st0, h0, hr⟩ := read_config_append_some rows r st h
    obtain ⟨hlen, v, hpy, hst⟩ := readRow_some_inv hr
    subst hst
    rw [List.filter_append]
    simp only [count_foldl_ddAppend, ih st0 h0]
    by_cases hu : r.getD 0 "" = u
    · have hu' : r[0]?.getD "" = u := by simpa using hu
      simp [hu, hu']
    · have hu' : ¬ r[0]?.getD "" = u := by simpa using hu
      simp [hu, hu']

theorem read_config_wf (rows : List (List String)) (st : St)
    (h : read_config rows = some st) :
    ∀ r ∈ rows, 2 ≤ r.length ∧ (pyInt (r.getD 1 "")).isSome := by
  induction rows using List.reverseRecOn generalizing st with
  | nil => intro r hr; cases hr
  | append_singleton rows r ih =>
    obtain ⟨st0, h0, hr0⟩ := read_config_append_some rows r st h
    obtain ⟨hlen, v, hpy, -⟩ := readRow_some_inv hr0
    intro r' hr'
    rcases List.mem_append.mp hr' with h1 | h2
    · exact ih st0 h0 r' h1
    · rw [List.mem_singleton.mp h2]
      exact ⟨hlen, by rw [hpy]; rfl⟩

theorem keys_mem_dictSet {α : Type} {d : PyDict α} {k a : String} {v : α}
    (h : a ∈ (dictSet d k v).map Prod.fst) : a = k ∨ a ∈ d.map Prod.fst := by
  rcases List.mem_map.mp h with ⟨p, hp, rfl⟩
  rcases mem_dictSet hp with rfl | hpd
  · exact Or.inl rfl
  · exact Or.inr (List.mem_map_of_mem _ hpd)

theorem keysNodup_dictSet {α : Type} (d : PyDict α) (k : String) (v : α)
    (h : keysNodup d) : keysNodup (dictSet d k v) := by
  induction d with
  | nil => simp [dictSet, keysNodup]
  | cons p rest ih =>
    unfold keysNodup at h ⊢
    rw [List.map_cons, List.nodup_cons] at h
    by_cases hpk : p.1 = k
    · rw [dictSet, if_pos hpk, List.map_cons, List.nodup_cons]
      exact ⟨hpk ▸ h.1, h.2⟩
    · rw [dictSet, if_neg hpk, List.map_cons, List.nodup_cons]
      refine ⟨fun hmem => ?_, ih h.2⟩
      rcases keys_mem_dictSet hmem with rfl | hmem2
      · exact hpk rfl
      · exact h.1 hmem2

theorem read_config_shows_keysNodup (rows : List (List String)) (st : St)
    (h : read_config rows = some st) : keysNodup st.banner_shows := by
  induction rows using List.reverseRecOn generalizing st with
  | nil =>
    rw [read_config_nil_inv h]
    simp [initSt, keysNodup]
  | append_singleton rows r ih =>
    obtain ⟨st0, h0, hr⟩ := read_config_append_some rows r st h
    obtain ⟨hlen, v, hpy, hst⟩ := readRow_some_inv hr
    subst hst
    exact keysNodup_dictSet _ _ _ (ih st0 h0)

theorem countP_eq_one_of_keysNodup {α : Type} (d : PyDict α) (u : String)
    (h : keysNodup d) (hmem : (dictGet? d u).isSome) :
    d.countP (fun p => p.1 == u) = 1 := by
  induction d with
  | nil => simp [dictGet?] at hmem
  | cons p rest ih =>
    unfold keysNodup at h
    rw [List.map_cons, List.nodup_cons] at h
    rw [List.countP_cons]
    by_cases hpu : p.1 = u
    · have hz : List.countP (fun p => p.1 == u) rest = 0 := by
        rw [List.countP_eq_zero]
        intro q hq
        simp only [beq_iff_eq]
        intro hqu
        apply h.1
        rw [hpu, ← hqu]
        exact List.mem_map_of_mem Prod.fst hq
      simp [hz, hpu]
    · have hm2 : (dictGet? rest u).isSome := by
        unfold dictGet? at hmem
        rwa [if_neg hpu] at hmem
      simp [hpu, ih h.2 hm2]

/-- Claim C10: when a configuration contains two or more records for the
same banner identifier, the loaded ledger holds exactly one entry for that
identifier whose budget is the parsed budget of the last such record
(earlier budgets are overwritten, not accumulated), the ordered banner list
contains the identifier once per record, and each category's membership list
contains it once per record-category pair. -/
theorem C10_duplicate_records (rows : List (List String)) (st : St)
    (u : String) (hload : read_config rows = some st)
    (hdup : 2 ≤ (rows.filter (fun r => r.getD 0 "" = u)).length) :
    st.banner_shows.countP (fun p => p.1 == u) = 1 ∧
    (∃ r, (rows.filter (fun r => r.getD 0 "" = u)).getLast? = some r ∧
      dictGet? st.banner_shows u = pyInt (r.getD 1 "")) ∧
    st.banner_urls.count u = (rows.filter (fun r => r.getD 0 "" = u)).length ∧
    ∀ c, (lookupD st.banner_categories c).count u =
      ((rows.filter (fun r => r.getD 0 "" = u)).map
        (fun r => (r.drop 2).count c)).sum := by
  have hne : (rows.filter (fun r => r.getD 0 "" = u)) ≠ [] := by
    intro h0
    rw [h0] at hdup
    simp at hdup
  obtain ⟨r, hr⟩ := Option.isSome_iff_exists.mp (List.getLast?_isSome.mpr hne)
  have hrmem : r ∈ rows.filter (fun r => r.getD 0 "" = u) :=
    List.mem_of_getLast?_eq_some hr
  have hrrows : r ∈ rows := List.mem_of_mem_filter hrmem
  have hlook : dictGet? st.banner_shows u = pyInt (r.getD 1 "") := by
    rw [read_config_shows_lookup rows st hload u, hr, Option.some_bind]
  refine ⟨?_, ⟨r, hr, hlook⟩, read_config_urls_count rows st hload u,
    read_config_cats_count rows st hload u⟩
  apply countP_eq_one_of_keysNodup _ _ (read_config_shows_keysNodup rows st hload)
  rw [hlook]
  exact (read_config_wf rows st hload r hrrows).2

/-- Witness for C10 at a concrete configuration: `cfgTen` has two records
for `x`; the loaded ledger has one `x` entry with the last record's budget
3, the banner list has `x` twice, and category `c` lists `x` twice. -/
theorem C10_witness :
    stTen.banner_shows.countP (fun p => p.1 == "x") = 1 ∧
    dictGet? stTen.banner_shows "x" = some 3 ∧
    stTen.banner_urls.count "x" = 2 ∧
    (lookupD stTen.banner_categories "c").count "x" = 2 := by
  have h := C10_duplicate_records cfgTen stTen "x" (by decide) (by decide)
  refine ⟨h.1, ?_, h.2.2.1.trans (by decide), (h.2.2.2 "c").trans (by decide)⟩
  obtain ⟨r, hr, hlook⟩ := h.2.1
  rw [hlook, show r = ["x", "3", "c", "d"] from by
    have : (cfgTen.filter (fun r => r.getD 0 "" = "x")).getLast? =
        some ["x", "3", "c", "d"] := by decide
    rw [this] at hr
    exact (Option.some.inj hr).symm]
  decide

end BannerServer
